import Mathlib

/-!
Verification development for the clock alignment engine of btplotting
(`btplotting/clock.py`, class `DataClockHandler`).

Shallow embedding conventions:
* Python `float` values that may be NaN are modelled as `Option ℤ`
  (`none` = NaN); the Python self-comparison `v == v` is `Option.isSome`.
* Timestamps (and the engine's slice values, which are only stored and
  tested for NaN, never arithmetically combined) are modelled as integers
  in units of 10⁻⁶ of the source's float unit, so the source's literal
  `1e-6` becomes `1` and one minute of the docstring examples becomes
  `minutes 1 = 1000000`.  The source only applies `+`, `-`, comparisons
  and float truthiness (`≠ 0`) to timestamps, and all these are preserved
  by that scaling (Python float rounding is idealised away, as the spec
  does).  The spec-modelled interpolation pass of C9 divides values, so it
  is stated over `Option ℚ` instead.
* Fallible evaluation is `Except PyErr`; Python `IndexError` and the
  `NameError` reachable in `_align_slice` (local `c_duration` read before
  assignment) are explicit error values.  Loops carry an explicit fuel
  argument; exhausting it yields the distinguished `PyErr.fuelExhausted`,
  which never occurs in any theorem below, so every `.ok`/`.indexError`
  result proved below is the genuine Python outcome.
-/

/-- A Python float that may be NaN: `none` is NaN; the payload is the
micro-unit integer value. -/
abbrev PyFloat := Option ℤ

/-- One minute of the docstring examples, in micro-units. -/
def minutes (m : ℤ) : ℤ := m * 1000000

/-- Errors of the embedded Python fragments. -/
inductive PyErr where
  | indexError
  | nameError
  | fuelExhausted
  deriving DecidableEq

/-- Python list indexing `a[i]`: negative indices wrap once (`a[-1]` is the
last element); anything outside `[-len, len)` raises `IndexError`. -/
def pyIndex {α : Type} (a : List α) (i : ℤ) : Except PyErr α :=
  if h : 0 ≤ i ∧ i < (a.length : ℤ) then
    .ok (a.get ⟨i.toNat, by omega⟩)
  else if h' : 0 ≤ i + (a.length : ℤ) ∧ i < 0 then
    .ok (a.get ⟨(i + (a.length : ℤ)).toNat, by omega⟩)
  else
    .error .indexError

/-- The backward scan of `DataClockHandler.__len__` (clock.py lines 72-82):
starting at `idx = len(clk) - 1`, `offset` grows while `clk[idx - offset]`
is NaN; the loop breaks on the first non-NaN value (or immediately when
`idx < 0`, i.e. the empty clock) and returns `(idx - offset) + 1`.
`clk[idx - offset]` is Python indexing, so once `idx - offset` becomes
negative it wraps around to the tail; on an entirely-NaN clock the scan
therefore runs past `-len` and raises `IndexError`. -/
def lenScan (clk : List PyFloat) (idx : ℤ) : ℕ → ℤ → Except PyErr ℤ
  | 0, _ => .error .fuelExhausted
  | fuel + 1, offset =>
    if idx < 0 then .ok ((idx - offset) + 1)
    else
      match pyIndex clk (idx - offset) with
      | .error e => .error e
      | .ok val => if val.isSome then .ok ((idx - offset) + 1)
                   else lenScan clk idx fuel (offset + 1)

/-- Embedding of `DataClockHandler.__len__` (clock.py lines 68-82), as a
function of the list returned by `_get_clk()`.  The fuel `2*len + 2`
covers the longest possible scan (all entries plus the full negative
wrap-around before the raising access). -/
def py_len (clk : List PyFloat) : Except PyErr ℤ :=
  lenScan clk ((clk.length : ℤ) - 1) (2 * clk.length + 2) 0

/-- Python `a[mid] < x` on a possibly-NaN list entry: NaN compares `False`. -/
def pyLtF (a : PyFloat) (x : ℤ) : Bool :=
  match a with
  | none => false
  | some q => decide (q < x)

/-- The loop of `bisect.bisect_left` from CPython:
`while lo < hi: mid = (lo+hi)//2; if a[mid] < x: lo = mid+1 else: hi = mid`,
returning `lo`.  In-range accesses are guaranteed by `hi ≤ len a`. -/
def bisectLoop (a : List PyFloat) (x : ℤ) : ℕ → ℕ → ℕ → Except PyErr ℕ
  | 0, _, _ => .error .fuelExhausted
  | fuel + 1, lo, hi =>
    if lo < hi then
      let mid := (lo + hi) / 2
      if pyLtF (a.getD mid none) x then bisectLoop a x fuel (mid + 1) hi
      else bisectLoop a x fuel lo mid
    else .ok lo

/-- `bisect_left(a, x)` as used by `get_start_end_idx` and
`get_idx_for_dt`; fuel `len + 1` bounds the (at most `len`) halvings. -/
def bisect_left (a : List PyFloat) (x : ℤ) : Except PyErr ℕ :=
  bisectLoop a x (a.length + 1) 0 a.length

/-- `x if dt is None else bisect_left(clk, bt.date2num(dt, ...))`: the raw
(unclamped) index computed by `get_start_end_idx` for one datetime bound,
with default `dflt`. -/
def rawIdx (clk : List PyFloat) (dt : Option ℤ) (dflt : ℤ) :
    Except PyErr ℤ :=
  match dt with
  | none => pure dflt
  | some v => do let b ← bisect_left clk v; pure (b : ℤ)

/-- `if startidx is not None and startidx >= len(self): startidx = 0`
(clock.py line 228-229; `startidx` is never `None` there). -/
def clampS (L s0 : ℤ) : ℤ := if s0 ≥ L then 0 else s0

/-- `if endidx is not None and endidx >= len(self): endidx = len(self)-1`
(clock.py line 234-235; `endidx` is never `None` there). -/
def clampE (L e0 : ℤ) : ℤ := if e0 ≥ L then L - 1 else e0

/-- Embedding of `DataClockHandler.get_start_end_idx` (clock.py lines
219-240) as a function of the `_get_clk()` list.  Datetime arguments are
modelled as their `bt.date2num` values (`none` = argument `None`),
`back` as `none` = `None`; Python's `if back:` is falsy for both `None`
and `0`, and the inner `if endidx is None` is dead code since `endidx`
is always an int by then.  `len(self)` is evaluated on every path (the
line-228 clamp always runs), so its possible `IndexError` is hoisted to
the front; `bisect_left` itself never raises, so evaluating it after
`len(self)` instead of before is observationally equal. -/
def get_start_end_idx (clk : List PyFloat) (startdt enddt : Option ℤ)
    (back : Option ℤ) : Except PyErr (ℤ × ℤ) := do
  let L ← py_len clk
  let s0 ← rawIdx clk startdt 0
  let e0 ← rawIdx clk enddt (L - 1)
  match back with
  | some k =>
    if k ≠ 0 then pure (max 0 (clampE L e0 - k + 1), clampE L e0)
    else pure (clampS L s0, clampE L e0)
  | none => pure (clampS L s0, clampE L e0)

/-- Python `range(s, t)` as a list of integers. -/
def intRange (s t : ℤ) : List ℤ :=
  (List.range (t - s).toNat).map (fun i : ℕ => s + (i : ℤ))

/-- Embedding of `DataClockHandler.get_idx_list` (clock.py lines 251-261)
for integer `startidx`/`endidx` (the callers relevant to the claims always
pass integers): `startidx = max(0, startidx)`, `endidx = min(len(self),
endidx)` — note `min` with `len(self)`, not `len(self) - 1` — then
`range(startidx, endidx + 1)` (or a 0-based range of the same length when
`preserveidx` is false). -/
def get_idx_list (clk : List PyFloat) (startidx endidx : ℤ)
    (preserveidx : Bool) : Except PyErr (List ℤ) := do
  let s := max 0 startidx
  let L ← py_len clk
  let e := min L endidx
  if preserveidx then pure (intRange s (e + 1))
  else pure (intRange 0 (e - s + 1))

/-- Embedding of `DataClockHandler.get_dt_list` (clock.py lines 263-275)
with `asfloat=True`, specialised to a clock whose entries are valid (the
sorted-unique timestamp list `_get_clk` produces): each index from
`get_idx_list` is read back from the clock with plain (non-negative)
indexing, raising `IndexError` when it is past the end. -/
def get_dt_list_float (clk : List ℤ) (startidx endidx : ℤ) :
    Except PyErr (List ℤ) := do
  let idxs ← get_idx_list (clk.map some) startidx endidx true
  idxs.mapM (fun i =>
    if h : 0 ≤ i ∧ i.toNat < clk.length then pure (clk.get ⟨i.toNat, h.2⟩)
    else .error .indexError)

/-- The slice dictionary `{'float': [...], 'value': [...]}` produced by
`get_slice`: parallel lists of timestamps and (possibly NaN) values. -/
structure SliceData where
  float : List ℤ
  value : List PyFloat

/-- Timestamp access `slicedata['float'][i]`.  Every such access in
`_align_slice` is guarded to be in range (`0 ≤ i ≤ maxidx < len`), so the
default value of `getD` is never produced. -/
def qidx (l : List ℤ) (i : ℤ) : ℤ := l.getD i.toNat 0

/-- Value access `slicedata['value'][i]`, same in-range guarantee. -/
def oidx (l : List PyFloat) (i : ℤ) : PyFloat := l.getD i.toNat none

/-- The source's float literal `1e-6`, i.e. one micro-unit. -/
def eps : ℤ := 1

/-- Result of one run of the inner `while True:` loop of `_align_slice`:
the final `t_val`, whether the loop itself already appended to `res`
(only the `l_idx < 0` branch does), and the updated persistent locals
`l_idx` and `c_duration`. -/
structure InnerRes where
  t_val : PyFloat
  extra : Bool
  l_idx : ℤ
  cdur : Option ℤ

/-- The inner `while True:` loop of `_align_slice` (clock.py lines
139-207), one target candle `[t_start, t_end]`.  State: `p_val`, `t_val`
(re-initialised to NaN by the caller for each target candle), the source
cursor `l_idx` and the persistent local `c_duration` (`none` = not yet
assigned; reading it unassigned is Python's `NameError`, reachable in the
`rightedge=False` branch where line 172 of the source mistakenly assigns
`duration = 0` instead of `c_duration = 0`).  Python truthiness of the
float `c_end` is `≠ 0`.  Every iteration either breaks or increments
`l_idx` (bounded by `maxidx`), so fuel `maxidx+3` never runs out. -/
def alignInner (sd : SliceData) (fillgaps rightedge : Bool) (maxidx : ℤ)
    (t_start t_end : ℤ) :
    ℕ → PyFloat → PyFloat → ℤ → Option ℤ → Except PyErr InnerRes
  | 0, _, _, _, _ => .error .fuelExhausted
  | fuel + 1, p_val, t_val, l_idx, cdur =>
    -- `if l_idx < 0: res.append(t_val); break`
    if l_idx < 0 then .ok ⟨t_val, true, l_idx, cdur⟩
    -- `if (l_idx > maxidx): break`
    else if l_idx > maxidx then .ok ⟨t_val, false, l_idx, cdur⟩
    else
      let c_val := oidx sd.value l_idx
      -- `if rightedge: ... else: ...` (c_start, c_end, c_duration)
      let step : Except PyErr (ℤ × ℤ × Option ℤ) :=
        if rightedge then
          let c_end := qidx sd.float l_idx
          let cd :=
            if l_idx = 0 then
              if maxidx > 1 then qidx sd.float 1 - qidx sd.float 0 else 0
            else qidx sd.float l_idx - qidx sd.float (l_idx - 1)
          .ok (c_end - cd, c_end, some cd)
        else
          let c_start := qidx sd.float l_idx
          if l_idx < maxidx - 1 then
            let cd := qidx sd.float (l_idx + 1) - qidx sd.float l_idx
            .ok (c_start, c_start + cd, some cd)
          else if maxidx > 1 then
            let cd := qidx sd.float 1 - qidx sd.float 0
            .ok (c_start, c_start + cd, some cd)
          else
            -- source line 172: `duration = 0` (not `c_duration`!); the next
            -- line `c_end = c_start + c_duration` reads the stale value, or
            -- raises NameError if c_duration was never assigned
            match cdur with
            | none => .error .nameError
            | some cd => .ok (c_start, c_start + cd, some cd)
      match step with
      | .error e => .error e
      | .ok (c_start, c_end, cdur') =>
        -- `if not fillgaps and c_start > t_end: break`
        if fillgaps = false ∧ c_start > t_end then .ok ⟨t_val, false, l_idx, cdur'⟩
        -- `if ((c_end and c_end < t_start and c_start < t_start)
        --      or (not c_end and c_start > t_start)):`
        else if (c_end ≠ 0 ∧ c_end < t_start ∧ c_start < t_start) ∨
                (c_end = 0 ∧ c_start > t_start) then
          let p_val' := if c_val.isSome then c_val else p_val
          alignInner sd fillgaps rightedge maxidx t_start t_end fuel
            p_val' t_val (l_idx + 1) cdur'
        else
          -- `if fillgaps: t_val = p_val if c_val != c_val else c_val
          --  else: if c_val == c_val: t_val = c_val`
          let t_val' :=
            if fillgaps then (if c_val.isSome then c_val else p_val)
            else (if c_val.isSome then c_val else t_val)
          -- `if fillgaps and c_end and c_end > t_end: break`
          if fillgaps = true ∧ c_end ≠ 0 ∧ c_end > t_end then
            .ok ⟨t_val', false, l_idx, cdur'⟩
          else
            alignInner sd fillgaps rightedge maxidx t_start t_end fuel
              p_val t_val' (l_idx + 1) cdur'

/-- The outer `for i in range(0, len(dtlist)):` loop of `_align_slice`
(clock.py lines 114-212).  For each target index the candle interval
`[t_start, t_end]` is formed from neighbouring clock timestamps and the
`rightedge` flag, the inner loop is run with `p_val`/`t_val` freshly
NaN (line 116-117 re-initialise them, making the trailing
`p_val = t_val` of lines 211-212 dead), and the resulting `t_val` is
appended — twice when the inner loop already appended it. -/
def alignOuter (dtlist : List ℤ) (sd : SliceData) (fillgaps rightedge : Bool)
    (maxidx : ℤ) :
    ℕ → ℕ → ℤ → Option ℤ → List PyFloat → Except PyErr (List PyFloat)
  | 0, _, _, _, _ => .error .fuelExhausted
  | fuel + 1, i, l_idx, cdur, res =>
    if h : i < dtlist.length then
      let di := dtlist.get ⟨i, h⟩
      let n := dtlist.length
      let tse : ℤ × ℤ :=
        if rightedge then
          let t_end := di - eps
          let duration :=
            if i = 0 then
              if n > 1 then dtlist.getD 1 0 - dtlist.getD 0 0 else 0
            else di - dtlist.getD (i - 1) 0
          (t_end - duration, t_end)
        else
          let t_start := di
          let duration :=
            if i < n - 1 then dtlist.getD (i + 1) 0 - di
            else if n > 1 then dtlist.getD 1 0 - dtlist.getD 0 0 else 0
          (t_start, t_start + duration - eps)
      match alignInner sd fillgaps rightedge maxidx tse.1 tse.2
          ((maxidx + 3).toNat + 1) none none l_idx cdur with
      | .error e => .error e
      | .ok r =>
        let appended := if r.extra then [r.t_val, r.t_val] else [r.t_val]
        alignOuter dtlist sd fillgaps rightedge maxidx fuel (i + 1)
          r.l_idx r.cdur (res ++ appended)
    else .ok res

/-- Embedding of `DataClockHandler._align_slice` (clock.py lines 102-213)
over a clock of valid timestamps: `dtlist` from `get_dt_list(startidx,
endidx, asfloat=True)`, `l_idx = -1` iff the slice's float list is empty,
`maxidx = min(len(float), len(value)) - 1`, then the two-pointer merge. -/
def align_slice (clk : List ℤ) (sd : SliceData) (startidx endidx : ℤ)
    (fillgaps rightedge : Bool) : Except PyErr (List PyFloat) := do
  let dtlist ← get_dt_list_float clk startidx endidx
  let l_idx : ℤ := if sd.float.length = 0 then -1 else 0
  let maxidx : ℤ := min (sd.float.length : ℤ) (sd.value.length : ℤ) - 1
  alignOuter dtlist sd fillgaps rightedge maxidx (dtlist.length + 1) 0
    l_idx none []

/-- Modelled from the spec: helper for the linear-interpolation pass — the
nearest non-NaN entry strictly before position `k` (index and value). -/
def lastSomeBefore (xs : List (Option ℚ)) (k : ℕ) : Option (ℕ × ℚ) :=
  ((List.range k).reverse.filterMap
    (fun i => (xs.getD i none).map (fun v => (i, v)))).head?

/-- Modelled from the spec: helper for the linear-interpolation pass — the
nearest non-NaN entry strictly after position `k` (index and value). -/
def firstSomeAfter (xs : List (Option ℚ)) (k : ℕ) : Option (ℕ × ℚ) :=
  ((List.range' (k + 1) (xs.length - (k + 1))).filterMap
    (fun i => (xs.getD i none).map (fun v => (i, v)))).head?

/-- Modelled from the spec: the "skipnan" fill policy.  The `get_data`
revision accepting a `skipnan` column list is missing from the sources —
`figure.py` (`Figure.skipnan`, lines 682-700) builds the list and passes
it as `get_data(..., skipnan=skipnan, ...)`, but the `clock.py` present
here has no such parameter.  Per the spec, a NaN gap in an aligned column
named in `skipnan` is filled by linear interpolation between the
surrounding non-NaN values, as a separate pass after alignment (clock
ticks are the evenly spaced grid); a NaN run reaching either end of the
column stays NaN. -/
def interpolate_nans (xs : List (Option ℚ)) : List (Option ℚ) :=
  (List.range xs.length).map fun k =>
    match xs.getD k none with
    | some v => some v
    | none =>
      match lastSomeBefore xs k, firstSomeAfter xs k with
      | some (i, a), some (j, b) =>
        some (a + (b - a) * (((k : ℚ) - (i : ℚ)) / ((j : ℚ) - (i : ℚ))))
      | _, _ => none

/-- Modelled from the spec: the default forward-fill pass of the missing
`get_data` revision — each NaN entry takes the last non-NaN value seen
before it (NaN while no value has been seen yet). -/
def forward_fill_from (last : Option ℚ) : List (Option ℚ) → List (Option ℚ)
  | [] => []
  | x :: rest =>
    match x with
    | some v => some v :: forward_fill_from (some v) rest
    | none => last :: forward_fill_from last rest

/-- Modelled from the spec: forward-fill of a whole column. -/
def forward_fill (xs : List (Option ℚ)) : List (Option ℚ) :=
  forward_fill_from none xs

/-! ### Helper lemmas -/

theorem except_bind_ok {α β : Type} (a : α) (f : α → Except PyErr β) :
    (Except.ok a >>= f) = f a := rfl

theorem intRange_mem {s t x : ℤ} (hx : x ∈ intRange s t) : s ≤ x ∧ x < t := by
  unfold intRange at hx
  rw [List.mem_map] at hx
  obtain ⟨i, hi, rfl⟩ := hx
  rw [List.mem_range] at hi
  omega

theorem lenScan_succ (clk : List PyFloat) (idx : ℤ) (fuel : ℕ) (offset : ℤ) :
    lenScan clk idx (fuel + 1) offset =
      if idx < 0 then .ok ((idx - offset) + 1)
      else
        match pyIndex clk (idx - offset) with
        | .error e => .error e
        | .ok val => if val.isSome then .ok ((idx - offset) + 1)
                     else lenScan clk idx fuel (offset + 1) := rfl

theorem lenScan_ok (clk : List PyFloat) (idx : ℤ) (j : ℕ) (hjl : j < clk.length)
    (hs : (clk.get ⟨j, hjl⟩).isSome = true) (hidx : idx < clk.length) :
    ∀ (fuel : ℕ) (offset : ℤ), 0 ≤ offset → (j : ℤ) ≤ idx - offset →
      idx - offset - j < fuel →
      ∃ L, lenScan clk idx fuel offset = .ok L ∧ 1 ≤ L ∧ L ≤ clk.length := by
  intro fuel
  induction fuel with
  | zero => intro offset _ hj hfuel; omega
  | succ fuel ih =>
    intro offset hoff hj hfuel
    have hmlt : (idx - offset).toNat < clk.length := by omega
    have hin : 0 ≤ idx - offset ∧ idx - offset < (clk.length : ℤ) := by omega
    have hpy : pyIndex clk (idx - offset) =
        .ok (clk.get ⟨(idx - offset).toNat, hmlt⟩) := by
      rw [pyIndex, dif_pos hin]
    by_cases hsome : (clk.get ⟨(idx - offset).toNat, hmlt⟩).isSome = true
    · refine ⟨(idx - offset) + 1, ?_, by omega, by omega⟩
      rw [lenScan_succ, if_neg (by omega : ¬ idx < 0), hpy]
      show (if (clk.get ⟨(idx - offset).toNat, hmlt⟩).isSome = true
          then Except.ok ((idx - offset) + 1)
          else lenScan clk idx fuel (offset + 1)) = Except.ok ((idx - offset) + 1)
      rw [if_pos hsome]
    · have hne : idx - offset ≠ (j : ℤ) := by
        intro heq
        apply hsome
        have hval : (idx - offset).toNat = j := by omega
        rw [show (⟨(idx - offset).toNat, hmlt⟩ : Fin clk.length) = ⟨j, hjl⟩
          from Fin.ext hval]
        exact hs
      obtain ⟨L, hL, h1, h2⟩ := ih (offset + 1) (by omega) (by omega) (by omega)
      refine ⟨L, ?_, h1, h2⟩
      rw [lenScan_succ, if_neg (by omega : ¬ idx < 0), hpy]
      show (if (clk.get ⟨(idx - offset).toNat, hmlt⟩).isSome = true
          then Except.ok ((idx - offset) + 1)
          else lenScan clk idx fuel (offset + 1)) = Except.ok L
      rw [if_neg hsome]
      exact hL

theorem py_len_nil : py_len [] = .ok 0 := rfl

theorem py_len_ok_of_mem (clk : List PyFloat) (x : PyFloat) (hx : x ∈ clk)
    (hs : x.isSome = true) :
    ∃ L, py_len clk = .ok L ∧ 1 ≤ L ∧ L ≤ clk.length := by
  obtain ⟨⟨j, hjl⟩, hget⟩ := List.mem_iff_get.mp hx
  have hs' : (clk.get ⟨j, hjl⟩).isSome = true := by rw [hget]; exact hs
  have hidx : ((clk.length : ℤ) - 1) < clk.length := by omega
  exact lenScan_ok clk ((clk.length : ℤ) - 1) j hjl hs' hidx
    (2 * clk.length + 2) 0 (by omega) (by omega) (by omega)

theorem py_len_valid (clk : List PyFloat)
    (hv : clk = [] ∨ ∃ x ∈ clk, x.isSome = true) :
    ∃ L, py_len clk = .ok L ∧ 0 ≤ L ∧ L ≤ clk.length := by
  rcases hv with rfl | ⟨x, hx, hs⟩
  · exact ⟨0, py_len_nil, by omega, by simp⟩
  · obtain ⟨L, h1, h2, h3⟩ := py_len_ok_of_mem clk x hx hs
    exact ⟨L, h1, by omega, h3⟩

theorem py_len_of_last_some (clk : List PyFloat) (hlen : 0 < clk.length)
    (hsome : (clk.get ⟨clk.length - 1, by omega⟩).isSome = true) :
    py_len clk = .ok (clk.length : ℤ) := by
  have hmlt : ((clk.length : ℤ) - 1 - 0).toNat < clk.length := by omega
  have hin : 0 ≤ (clk.length : ℤ) - 1 - 0 ∧
      (clk.length : ℤ) - 1 - 0 < (clk.length : ℤ) := by omega
  have hpy : pyIndex clk ((clk.length : ℤ) - 1 - 0) =
      .ok (clk.get ⟨((clk.length : ℤ) - 1 - 0).toNat, hmlt⟩) := by
    rw [pyIndex, dif_pos hin]
  have hval : ((clk.length : ℤ) - 1 - 0).toNat = clk.length - 1 := by omega
  have hsome' : (clk.get ⟨((clk.length : ℤ) - 1 - 0).toNat, hmlt⟩).isSome
      = true := by
    rw [show (⟨((clk.length : ℤ) - 1 - 0).toNat, hmlt⟩ : Fin clk.length)
      = ⟨clk.length - 1, by omega⟩ from Fin.ext hval]
    exact hsome
  rw [py_len, show 2 * clk.length + 2 = (2 * clk.length + 1) + 1 from rfl,
    lenScan_succ, if_neg (by omega : ¬ ((clk.length : ℤ) - 1) < 0), hpy]
  show (if (clk.get ⟨((clk.length : ℤ) - 1 - 0).toNat, hmlt⟩).isSome = true
      then Except.ok ((clk.length : ℤ) - 1 - 0 + 1)
      else lenScan clk ((clk.length : ℤ) - 1) (2 * clk.length + 1) (0 + 1))
      = Except.ok (clk.length : ℤ)
  rw [if_pos hsome']
  congr 1
  omega

theorem py_len_map_some (vals : List ℤ) :
    py_len (vals.map some) = .ok (vals.length : ℤ) := by
  rcases vals with _ | ⟨a, l⟩
  · exact py_len_nil
  · have hlen : 0 < ((a :: l).map some).length := by simp
    have hsome : (((a :: l).map some).get
        ⟨((a :: l).map some).length - 1, by omega⟩).isSome = true := by
      rw [List.get_map]
      rfl
    have := py_len_of_last_some ((a :: l).map some) hlen hsome
    simpa using this

theorem bisectLoop_succ (a : List PyFloat) (x : ℤ) (fuel lo hi : ℕ) :
    bisectLoop a x (fuel + 1) lo hi =
      if lo < hi then
        (if pyLtF (a.getD ((lo + hi) / 2) none) x then
          bisectLoop a x fuel ((lo + hi) / 2 + 1) hi
        else bisectLoop a x fuel lo ((lo + hi) / 2))
      else .ok lo := rfl

theorem bisectLoop_ok (a : List PyFloat) (x : ℤ) :
    ∀ (fuel lo hi : ℕ), lo ≤ hi → hi - lo < fuel →
      ∃ r, bisectLoop a x fuel lo hi = .ok r ∧ lo ≤ r ∧ r ≤ hi := by
  intro fuel
  induction fuel with
  | zero => intro lo hi hlh hfuel; omega
  | succ fuel ih =>
    intro lo hi hlh hfuel
    rw [bisectLoop_succ]
    by_cases h : lo < hi
    · rw [if_pos h]
      have hmidlo : lo ≤ (lo + hi) / 2 := by
        rw [Nat.le_div_iff_mul_le (by omega)]; omega
      have hmidhi : (lo + hi) / 2 < hi := by
        rw [Nat.div_lt_iff_lt_mul (by omega)]; omega
      by_cases hlt : pyLtF (a.getD ((lo + hi) / 2) none) x
      · rw [if_pos hlt]
        obtain ⟨r, hr, h1, h2⟩ := ih ((lo + hi) / 2 + 1) hi (by omega) (by omega)
        exact ⟨r, hr, by omega, h2⟩
      · rw [if_neg hlt]
        obtain ⟨r, hr, h1, h2⟩ := ih lo ((lo + hi) / 2) (by omega) (by omega)
        exact ⟨r, hr, h1, by omega⟩
    · rw [if_neg h]
      exact ⟨lo, rfl, le_refl lo, hlh⟩

theorem bisect_left_ok (a : List PyFloat) (x : ℤ) :
    ∃ b, bisect_left a x = .ok b ∧ b ≤ a.length := by
  obtain ⟨r, hr, _, h2⟩ :=
    bisectLoop_ok a x (a.length + 1) 0 a.length (by omega) (by omega)
  exact ⟨r, hr, h2⟩

theorem map_some_getD (vals : List ℤ) (m : ℕ) (hm : m < vals.length) :
    (vals.map some).getD m none = some (vals.get ⟨m, hm⟩) := by
  rw [List.getD_eq_getElem ((vals.map some)) none (by simpa using hm)]
  simp

theorem pairwise_get_le (vals : List ℤ)
    (hsort : List.Pairwise (· ≤ ·) vals)
    (i j : ℕ) (hi : i < vals.length) (hj : j < vals.length) (hij : i ≤ j) :
    vals.get ⟨i, hi⟩ ≤ vals.get ⟨j, hj⟩ := by
  rcases Nat.lt_or_ge i j with h | h
  · exact List.pairwise_iff_get.mp hsort ⟨i, hi⟩ ⟨j, hj⟩ h
  · have : i = j := by omega
    subst this
    exact le_refl _

theorem bisectLoop_sorted (vals : List ℤ) (x : ℤ)
    (hsort : List.Pairwise (· ≤ ·) vals) :
    ∀ (fuel lo hi : ℕ), hi ≤ vals.length → lo ≤ hi → hi - lo < fuel →
      (∀ (j : ℕ) (hj : j < vals.length), j < lo → vals.get ⟨j, hj⟩ < x) →
      (∀ (j : ℕ) (hj : j < vals.length), hi ≤ j → x ≤ vals.get ⟨j, hj⟩) →
      ∃ r, bisectLoop (vals.map some) x fuel lo hi = .ok r ∧
        r ≤ vals.length ∧
        (∀ (j : ℕ) (hj : j < vals.length), j < r → vals.get ⟨j, hj⟩ < x) ∧
        (∀ (j : ℕ) (hj : j < vals.length), r ≤ j → x ≤ vals.get ⟨j, hj⟩) := by
  intro fuel
  induction fuel with
  | zero => intro lo hi _ hlh hfuel; omega
  | succ fuel ih =>
    intro lo hi hhi hlh hfuel hlow hhigh
    rw [bisectLoop_succ]
    by_cases h : lo < hi
    · rw [if_pos h]
      have hmidlo : lo ≤ (lo + hi) / 2 := by
        rw [Nat.le_div_iff_mul_le (by omega)]; omega
      have hmidhi : (lo + hi) / 2 < hi := by
        rw [Nat.div_lt_iff_lt_mul (by omega)]; omega
      have hmidlen : (lo + hi) / 2 < vals.length := by omega
      rw [map_some_getD vals ((lo + hi) / 2) hmidlen]
      by_cases hlt : vals.get ⟨(lo + hi) / 2, hmidlen⟩ < x
      · rw [if_pos (by simpa [pyLtF] using hlt)]
        refine ih ((lo + hi) / 2 + 1) hi hhi (by omega) (by omega) ?_ hhigh
        intro j hj hjmid
        calc vals.get ⟨j, hj⟩ ≤ vals.get ⟨(lo + hi) / 2, hmidlen⟩ :=
              pairwise_get_le vals hsort j ((lo + hi) / 2) hj hmidlen (by omega)
          _ < x := hlt
      · rw [if_neg (by simpa [pyLtF] using hlt)]
        refine ih lo ((lo + hi) / 2) (by omega) (by omega) (by omega) hlow ?_
        intro j hj hjmid
        calc x ≤ vals.get ⟨(lo + hi) / 2, hmidlen⟩ := le_of_not_lt hlt
          _ ≤ vals.get ⟨j, hj⟩ :=
              pairwise_get_le vals hsort ((lo + hi) / 2) j hmidlen hj hjmid
    · rw [if_neg h]
      have hlohi : lo = hi := by omega
      refine ⟨lo, rfl, by omega, hlow, ?_⟩
      intro j hj hjlo
      exact hhigh j hj (by omega)

theorem bisect_left_sorted (vals : List ℤ) (x : ℤ)
    (hsort : List.Pairwise (· ≤ ·) vals) :
    ∃ b, bisect_left (vals.map some) x = .ok b ∧ b ≤ vals.length ∧
      (∀ (j : ℕ) (hj : j < vals.length), j < b → vals.get ⟨j, hj⟩ < x) ∧
      (∀ (j : ℕ) (hj : j < vals.length), b ≤ j → x ≤ vals.get ⟨j, hj⟩) := by
  have hlen : (vals.map some).length = vals.length := by simp
  obtain ⟨r, hr, h1, h2, h3⟩ := bisectLoop_sorted vals x hsort
    ((vals.map some).length + 1) 0 (vals.map some).length
    (by omega) (by omega) (by omega)
    (by intro j hj hj0; omega)
    (by intro j hj hjlen; omega)
  exact ⟨r, hr, h1, h2, h3⟩

theorem rawIdx_ok (clk : List PyFloat) (dt : Option ℤ) (dflt : ℤ) :
    ∃ r, rawIdx clk dt dflt = .ok r ∧
      (dt = none → r = dflt) ∧
      (∀ v, dt = some v →
        ∃ b, bisect_left clk v = .ok b ∧ r = (b : ℤ) ∧ b ≤ clk.length) := by
  cases dt with
  | none => exact ⟨dflt, rfl, fun _ => rfl, by intro v hv; cases hv⟩
  | some v =>
    obtain ⟨b, hb, hble⟩ := bisect_left_ok clk v
    have hrun : rawIdx clk (some v) dflt = .ok (b : ℤ) := by
      rw [rawIdx, hb, except_bind_ok]
      rfl
    refine ⟨(b : ℤ), hrun, ?_, ?_⟩
    · intro hv
      cases hv
    · intro w hw
      injection hw with hw
      subst hw
      exact ⟨b, hb, rfl, hble⟩

theorem gse_ok_form (clk : List PyFloat) (sdt edt : Option ℤ)
    (back : Option ℤ) (L s0 e0 : ℤ) (hL : py_len clk = .ok L)
    (hs : rawIdx clk sdt 0 = .ok s0) (he : rawIdx clk edt (L - 1) = .ok e0) :
    get_start_end_idx clk sdt edt back = .ok (
      match back with
      | some k =>
        if k ≠ 0 then (max 0 (clampE L e0 - k + 1), clampE L e0)
        else (clampS L s0, clampE L e0)
      | none => (clampS L s0, clampE L e0)) := by
  rw [get_start_end_idx, hL, except_bind_ok, hs, except_bind_ok, he,
    except_bind_ok]
  cases back with
  | none => rfl
  | some k =>
    by_cases hk : k = 0
    · simp only [hk]
      rfl
    · simp only [if_pos hk, ne_eq, hk, not_false_iff, if_true]
      rfl

theorem gse_bounds (clk : List PyFloat) (sdt edt : Option ℤ)
    (back : Option ℤ) (L : ℤ) (hL : py_len clk = .ok L) (hL0 : 0 ≤ L) :
    ∃ s e, get_start_end_idx clk sdt edt back = .ok (s, e) ∧ e ≤ L - 1 ∧
      (back = none → 0 ≤ s ∧ s ≤ max (L - 1) 0) := by
  obtain ⟨s0, hs, hsn, hss⟩ := rawIdx_ok clk sdt 0
  obtain ⟨e0, he, hen, hes⟩ := rawIdx_ok clk edt (L - 1)
  have hform := gse_ok_form clk sdt edt back L s0 e0 hL hs he
  have hs0 : 0 ≤ s0 := by
    cases sdt with
    | none => rw [hsn rfl]
    | some v =>
      obtain ⟨b, _, hb, _⟩ := hss v rfl
      omega
  have hE : clampE L e0 ≤ L - 1 := by
    unfold clampE; split <;> omega
  have hSlo : 0 ≤ clampS L s0 := by
    unfold clampS; split <;> omega
  have hShi : clampS L s0 ≤ max (L - 1) 0 := by
    unfold clampS; split <;> omega
  cases back with
  | none => exact ⟨clampS L s0, clampE L e0, hform, hE, fun _ => ⟨hSlo, hShi⟩⟩
  | some k =>
    by_cases hk : k = 0
    · subst hk
      refine ⟨clampS L s0, clampE L e0, ?_, hE, ?_⟩
      · simpa using hform
      · intro h; cases h
    · refine ⟨max 0 (clampE L e0 - k + 1), clampE L e0, ?_, hE, ?_⟩
      · simpa [hk] using hform
      · intro h; cases h

/-! ### Claim theorems -/

/-- C1: the claim states that `_align_slice` always returns exactly
`endidx - startidx + 1` values, including for an empty source slice (and
the class docstring promises the same).  Evaluating the code at the
failing input — the empty slice, clock window `(0, 1)` on the clock
`[10:00, 10:05]` — returns 4 values instead of 2: with no source data
(`l_idx = -1`) the inner loop appends `t_val` itself and breaks, after
which line 209 appends `t_val` a second time, once per clock tick. -/
theorem c1_align_slice_empty_slice_length_bug :
    align_slice [minutes 600, minutes 605] ⟨[], []⟩ 0 1 false true =
      .ok [none, none, none, none] ∧
    ([none, none, none, none] : List PyFloat).length ≠ 1 - 0 + 1 :=
  ⟨rfl, by decide⟩

/-- C2: `__len__` scans backward over trailing NaNs: `[t0, t1, t2, NaN]`
reports 3 and `[t0, NaN, NaN]` reports 1, as the claim states; but on an
entirely-NaN non-empty backing the scan's broken guard (`if idx < 0`,
where `idx` never changes) lets `clk[idx - offset]` wrap through the
negative indices and finally raise `IndexError`, instead of failing
closed to 0 as the claim states.  The empty backing does return 0. -/
theorem c2_py_len_trailing_nan :
    py_len [some (minutes 600), some (minutes 601), some (minutes 602),
      none] = .ok 3 ∧
    py_len [some (minutes 600), none, none] = .ok 1 ∧
    py_len [none] = .error .indexError ∧
    py_len ([] : List PyFloat) = .ok 0 :=
  ⟨rfl, rfl, rfl, rfl⟩

/-- C3 (counterexample): on the claim's golden input — clock
`[10:00, 10:05, 10:10]`, source at 1-minute steps `10:00 .. 10:07` with
values 0..7, right-edge with gap filling — `_align_slice` returns
`[0, 5, 7]`, not the claimed `[value@10:00, value@10:05, value@10:05] =
[0, 5, 5]` (nor the docstring's `[4, 7, 7]`). -/
theorem c3_align_slice_golden_cex :
    align_slice [minutes 600, minutes 605, minutes 610]
      ⟨[minutes 600, minutes 601, minutes 602, minutes 603, minutes 604,
        minutes 605, minutes 606, minutes 607],
       [some 0, some 1, some 2, some 3, some 4, some 5, some 6, some 7]⟩
      0 2 true true = .ok [some 0, some 5, some 7] ∧
    ([some 0, some 5, some 7] : List PyFloat) ≠ [some 0, some 5, some 5] :=
  ⟨by rfl, by decide⟩

/-- C3 (amended): the same golden input returns exactly the 3-element
result `[0, 5, 7]` — the value at-or-just-before each clock tick (the
last source point of the final bucket for the tick beyond the source). -/
theorem c3_align_slice_golden :
    align_slice [minutes 600, minutes 605, minutes 610]
      ⟨[minutes 600, minutes 601, minutes 602, minutes 603, minutes 604,
        minutes 605, minutes 606, minutes 607],
       [some 0, some 1, some 2, some 3, some 4, some 5, some 6, some 7]⟩
      0 2 true true = .ok [some 0, some 5, some 7] ∧
    ([some 0, some 5, some 7] : List PyFloat).length = 2 - 0 + 1 :=
  ⟨by rfl, rfl⟩

/-- C4: the claim (and docstring example 2) say that with fill-gaps a
clock tick strictly between two source points receives the *earlier*
point's value.  Evaluating the code at the docstring's own example —
1-minute clock `10:00 .. 10:07`, source `[(10:00, 10), (10:05, 50)]`,
`fillgaps=True` — the intermediate ticks `10:01 .. 10:04` receive the
*later* value 50 (with `fillgaps` the `c_start > t_end` cut-off is
skipped, so the next source candle overwrites `t_val` before the break),
and the trailing tick `10:07` receives NaN, not the held 50. -/
theorem c4_align_slice_fillgaps_bug :
    align_slice [minutes 600, minutes 601, minutes 602, minutes 603,
        minutes 604, minutes 605, minutes 606, minutes 607]
      ⟨[minutes 600, minutes 605], [some 10, some 50]⟩ 0 7 true true =
      .ok [some 10, some 50, some 50, some 50, some 50, some 50,
           some 50, none] ∧
    ([some 10, some 50, some 50, some 50, some 50, some 50, some 50, none] :
      List PyFloat).getD 1 none ≠ some 10 :=
  ⟨by rfl, by decide⟩

/-- C9: a "skipnan" column's NaN gap is filled by linear interpolation in
a separate pass after alignment: the gap of 3 NaNs between 10 and 20 at
evenly spaced points becomes 12.5, 15, 17.5, whereas the default
forward-fill pass produces 10, 10, 10 over the same gap. -/
theorem c9_skipnan_interpolation :
    interpolate_nans [some 10, none, none, none, some 20] =
      [some 10, some (25/2 : ℚ), some 15, some (35/2 : ℚ), some 20] ∧
    forward_fill [some 10, none, none, none, some 20] =
      [some 10, some 10, some 10, some 10, some 20] := by
  constructor
  · norm_num [interpolate_nans, lastSomeBefore, firstSomeAfter,
      List.range_succ, List.range']
  · rfl

/-- C10 (counterexample): the claim says every query outside an open
clock snapshot fails fast with an assertion violation.  The code has no
snapshot mechanism at all — `_get_clk` recomputes from the live backing
array on every call — so this length/range query (necessarily performed
with no snapshot open) returns normally instead of raising. -/
theorem c10_query_without_snapshot_cex :
    py_len [some (minutes 600), some (minutes 601), some (minutes 602)] =
      .ok 3 ∧
    get_start_end_idx
      [some (minutes 600), some (minutes 601), some (minutes 602)]
      none none none =
      .ok (0, 2) ∧
    (Except.ok (3 : ℤ) : Except PyErr ℤ) ≠ .error .indexError :=
  ⟨rfl, rfl, by simp⟩

/-- C10 (amended): there is no snapshot contract — every query reads the
live backing array unguarded through `_get_clk` and, on a backing of
valid timestamps, returns normally (no assertion, no error), whatever
range arguments are passed. -/
theorem c10_no_snapshot_contract (vals : List ℤ) (sdt edt : Option ℤ)
    (back : Option ℤ) :
    py_len (vals.map some) = .ok (vals.length : ℤ) ∧
    ∃ s e, get_start_end_idx (vals.map some) sdt edt back = .ok (s, e) := by
  refine ⟨py_len_map_some vals, ?_⟩
  obtain ⟨s, e, h1, _, _⟩ := gse_bounds (vals.map some) sdt edt back
    (vals.length : ℤ) (py_len_map_some vals) (by omega)
  exact ⟨s, e, h1⟩

/-- C10 (witness): the amended theorem applied to a concrete live backing
and a concrete query. -/
theorem c10_no_snapshot_contract_witness :
    py_len (([minutes 600, minutes 601] : List ℤ).map some) =
      .ok (([minutes 600, minutes 601] : List ℤ).length : ℤ) ∧
    ∃ s e, get_start_end_idx (([minutes 600, minutes 601] : List ℤ).map some)
      none none none = .ok (s, e) :=
  c10_no_snapshot_contract [minutes 600, minutes 601] none none none

/-- C5 (counterexample): on the clock `[10:00, 10:01, 10:02]` with a start
datetime past the data (`10:40`), the computed start index 3 is `≥
clockLength = 3`, and instead of being "clamped down to clockLength-1"
(= 2) as the claim states, it is reset to 0. -/
theorem c5_start_reset_cex :
    get_start_end_idx
      [some (minutes 600), some (minutes 601), some (minutes 602)]
      (some (minutes 700)) none none = .ok (0, 2) ∧
    (0 : ℤ) ≠ 3 - 1 :=
  ⟨rfl, by decide⟩

/-- C5 (amended): `get_start_end_idx` never raises provided the backing
clock is empty or has at least one non-NaN entry (on a non-empty
entirely-NaN backing the `len(self)` call raises `IndexError` — see C2 —
and that propagates); a computed end index `≥ clockLength` is clamped
down to `clockLength - 1`, but an out-of-range start index is reset to 0
rather than `clockLength - 1`, so without a lookback the returned start
always lies in `[0, max (clockLength - 1) 0]`. -/
theorem c5_get_start_end_idx_total (clk : List PyFloat)
    (sdt edt : Option ℤ) (back : Option ℤ)
    (hv : clk = [] ∨ ∃ x ∈ clk, x.isSome = true) :
    ∃ L s e, py_len clk = .ok L ∧
      get_start_end_idx clk sdt edt back = .ok (s, e) ∧
      e ≤ L - 1 ∧ (back = none → 0 ≤ s ∧ s ≤ max (L - 1) 0) := by
  obtain ⟨L, hL, hL0, _⟩ := py_len_valid clk hv
  obtain ⟨s, e, h1, h2, h3⟩ := gse_bounds clk sdt edt back L hL hL0
  exact ⟨L, s, e, hL, h1, h2, h3⟩

/-- C5 (witness): the amended theorem applied to the length-3 clock with
a start datetime beyond the data. -/
theorem c5_get_start_end_idx_total_witness :
    ∃ L s e,
      py_len [some (minutes 600), some (minutes 601), some (minutes 602)] =
        .ok L ∧
      get_start_end_idx
        [some (minutes 600), some (minutes 601), some (minutes 602)]
        (some (minutes 700)) none none = .ok (s, e) ∧
      e ≤ L - 1 ∧ ((none : Option ℤ) = none → 0 ≤ s ∧ s ≤ max (L - 1) 0) :=
  c5_get_start_end_idx_total _ _ _ _
    (Or.inr ⟨some (minutes 600), by simp, rfl⟩)

/-- C6: whenever a non-zero lookback `k` is passed (Python's `if back:`
treats `back=0` like `None`), the start index is `max 0 (e - k + 1)` for
the returned end index `e`, and any explicitly given start datetime is
ignored (the result equals the one computed with no start datetime). -/
theorem c6_lookback_overrides (clk : List PyFloat) (sdt edt : Option ℤ)
    (k : ℤ) (hk : k ≠ 0) (hv : clk = [] ∨ ∃ x ∈ clk, x.isSome = true) :
    ∃ e, get_start_end_idx clk sdt edt (some k) =
        .ok (max 0 (e - k + 1), e) ∧
      get_start_end_idx clk sdt edt (some k) =
        get_start_end_idx clk none edt (some k) := by
  obtain ⟨L, hL, _, _⟩ := py_len_valid clk hv
  obtain ⟨s0, hs, _, _⟩ := rawIdx_ok clk sdt 0
  obtain ⟨e0, he, _, _⟩ := rawIdx_ok clk edt (L - 1)
  have h1 := gse_ok_form clk sdt edt (some k) L s0 e0 hL hs he
  have hs' : rawIdx clk none 0 = .ok 0 := rfl
  have h2 := gse_ok_form clk none edt (some k) L 0 e0 hL hs' he
  refine ⟨clampE L e0, ?_, ?_⟩
  · rw [h1]
    simp [hk]
  · rw [h1, h2]
    simp [hk]

/-- C6 (witness): `lookback = 10` on the length-3 clock yields
`startIndex = 0, endIndex = 2`, also when a start datetime is given. -/
theorem c6_lookback_overrides_witness :
    (10 : ℤ) ≠ 0 ∧
    get_start_end_idx
      [some (minutes 600), some (minutes 601), some (minutes 602)]
      none none (some 10) = .ok (0, 2) ∧
    ∃ e, get_start_end_idx
        [some (minutes 600), some (minutes 601), some (minutes 602)]
        (some (minutes 601)) none (some 10) = .ok (max 0 (e - 10 + 1), e) ∧
      get_start_end_idx
        [some (minutes 600), some (minutes 601), some (minutes 602)]
        (some (minutes 601)) none (some 10) =
      get_start_end_idx
        [some (minutes 600), some (minutes 601), some (minutes 602)]
        none none (some 10) :=
  ⟨by decide, rfl,
    c6_lookback_overrides _ (some (minutes 601)) none 10 (by decide)
      (Or.inr ⟨some (minutes 600), by simp, rfl⟩)⟩

/-- C7: without a lookback, on a sorted all-valid clock: no start
datetime resolves the start to 0; no end datetime resolves the end to
`clockLength - 1`; and a given datetime bound resolves to the *leftmost*
clock position with `clock[i] ≥ bound` whenever such a position exists —
a lower-bound search, so a query ending exactly on a clock timestamp
includes that timestamp. -/
theorem c7_lower_bound_search (vals : List ℤ) (sdt edt : Option ℤ)
    (hsort : List.Pairwise (· ≤ ·) vals) :
    ∃ s e, get_start_end_idx (vals.map some) sdt edt none = .ok (s, e) ∧
      (sdt = none → s = 0) ∧
      (∀ v, sdt = some v → ∀ (i : ℕ) (hi : i < vals.length),
        v ≤ vals.get ⟨i, hi⟩ →
        ∃ hsn : s.toNat < vals.length,
          0 ≤ s ∧ v ≤ vals.get ⟨s.toNat, hsn⟩ ∧
          ∀ (j : ℕ) (hj : j < vals.length), (j : ℤ) < s →
            vals.get ⟨j, hj⟩ < v) ∧
      (edt = none → e = (vals.length : ℤ) - 1) ∧
      (∀ v, edt = some v → ∀ (i : ℕ) (hi : i < vals.length),
        v ≤ vals.get ⟨i, hi⟩ →
        ∃ hen : e.toNat < vals.length,
          0 ≤ e ∧ v ≤ vals.get ⟨e.toNat, hen⟩ ∧
          ∀ (j : ℕ) (hj : j < vals.length), (j : ℤ) < e →
            vals.get ⟨j, hj⟩ < v) := by
  have hL := py_len_map_some vals
  obtain ⟨s0, hs, hsnone, hssome⟩ := rawIdx_ok (vals.map some) sdt 0
  obtain ⟨e0, he, henone, hesome⟩ :=
    rawIdx_ok (vals.map some) edt ((vals.length : ℤ) - 1)
  have hform := gse_ok_form (vals.map some) sdt edt none
    (vals.length : ℤ) s0 e0 hL hs he
  refine ⟨clampS (vals.length : ℤ) s0, clampE (vals.length : ℤ) e0,
    hform, ?_, ?_, ?_, ?_⟩
  · intro hnone
    rw [hsnone hnone]
    unfold clampS
    split <;> rfl
  · intro v hsv i hi hvi
    obtain ⟨b, hb, hs0b, _⟩ := hssome v hsv
    obtain ⟨b', hb', _, hlow, hhigh⟩ := bisect_left_sorted vals v hsort
    have hbb : b = b' := by
      rw [hb] at hb'
      injection hb'
    subst hbb
    have hbi : b ≤ i := by
      by_contra hgt
      push_neg at hgt
      exact absurd hvi (not_le.mpr (hlow i hi hgt))
    have hsval : clampS (vals.length : ℤ) s0 = (b : ℤ) := by
      rw [hs0b]
      unfold clampS
      rw [if_neg (by omega)]
    rw [hsval]
    have hbn : ((b : ℤ)).toNat = b := Int.toNat_natCast b
    refine ⟨by omega, by omega, ?_, ?_⟩
    · have hblen : b < vals.length := by omega
      exact hhigh b hblen (le_refl b)
    · intro j hj hjb
      exact hlow j hj (by omega)
  · intro hnone
    rw [henone hnone]
    unfold clampE
    rw [if_neg (by omega)]
  · intro v hev i hi hvi
    obtain ⟨b, hb, he0b, _⟩ := hesome v hev
    obtain ⟨b', hb', _, hlow, hhigh⟩ := bisect_left_sorted vals v hsort
    have hbb : b = b' := by
      rw [hb] at hb'
      injection hb'
    subst hbb
    have hbi : b ≤ i := by
      by_contra hgt
      push_neg at hgt
      exact absurd hvi (not_le.mpr (hlow i hi hgt))
    have heval : clampE (vals.length : ℤ) e0 = (b : ℤ) := by
      rw [he0b]
      unfold clampE
      rw [if_neg (by omega)]
    rw [heval]
    have hbn : ((b : ℤ)).toNat = b := Int.toNat_natCast b
    refine ⟨by omega, by omega, ?_, ?_⟩
    · have hblen : b < vals.length := by omega
      exact hhigh b hblen (le_refl b)
    · intro j hj hjb
      exact hlow j hj (by omega)

/-- C7 (witness): a query whose end datetime falls exactly on the middle
clock timestamp `10:01` resolves both bounds to index 1 — the exact
timestamp is included. -/
theorem c7_lower_bound_search_witness :
    (get_start_end_idx ([minutes 600, minutes 601, minutes 602].map some)
      (some (minutes 601)) (some (minutes 601)) none = .ok (1, 1)) ∧
    ∃ s e, get_start_end_idx
        ([minutes 600, minutes 601, minutes 602].map some)
        (some (minutes 601)) (some (minutes 601)) none = .ok (s, e) ∧
      ((some (minutes 601) : Option ℤ) = none → s = 0) ∧
      (∀ v, (some (minutes 601) : Option ℤ) = some v →
        ∀ (i : ℕ) (hi : i < ([minutes 600, minutes 601, minutes 602] :
            List ℤ).length),
        v ≤ ([minutes 600, minutes 601, minutes 602] : List ℤ).get ⟨i, hi⟩ →
        ∃ hsn : s.toNat < ([minutes 600, minutes 601, minutes 602] :
            List ℤ).length,
          0 ≤ s ∧ v ≤ ([minutes 600, minutes 601, minutes 602] :
            List ℤ).get ⟨s.toNat, hsn⟩ ∧
          ∀ (j : ℕ) (hj : j < ([minutes 600, minutes 601, minutes 602] :
              List ℤ).length), (j : ℤ) < s →
            ([minutes 600, minutes 601, minutes 602] : List ℤ).get ⟨j, hj⟩
              < v) ∧
      ((some (minutes 601) : Option ℤ) = none →
        e = (([minutes 600, minutes 601, minutes 602] :
          List ℤ).length : ℤ) - 1) ∧
      (∀ v, (some (minutes 601) : Option ℤ) = some v →
        ∀ (i : ℕ) (hi : i < ([minutes 600, minutes 601, minutes 602] :
            List ℤ).length),
        v ≤ ([minutes 600, minutes 601, minutes 602] : List ℤ).get ⟨i, hi⟩ →
        ∃ hen : e.toNat < ([minutes 600, minutes 601, minutes 602] :
            List ℤ).length,
          0 ≤ e ∧ v ≤ ([minutes 600, minutes 601, minutes 602] :
            List ℤ).get ⟨e.toNat, hen⟩ ∧
          ∀ (j : ℕ) (hj : j < ([minutes 600, minutes 601, minutes 602] :
              List ℤ).length), (j : ℤ) < e →
            ([minutes 600, minutes 601, minutes 602] : List ℤ).get ⟨j, hj⟩
              < v) :=
  ⟨rfl, c7_lower_bound_search [minutes 600, minutes 601, minutes 602]
    (some (minutes 601)) (some (minutes 601)) (by decide)⟩

/-- C8 (counterexample): `get_idx_list` clamps the end index with
`min(len(self), endidx)` — not `len(self) - 1` — so on the length-2
clock the window `(0, 2)` yields the index list `[0, 1, 2]`, whose last
element 2 is outside `[0, clockLength-1] = [0, 1]`; and
`get_start_end_idx` does not enforce `startIndex ≤ endIndex`: a start
datetime after the end datetime yields `(2, 0)`. -/
theorem c8_window_invariant_cex :
    get_idx_list [some (minutes 600), some (minutes 601)] 0 2 true =
      .ok [0, 1, 2] ∧
    py_len [some (minutes 600), some (minutes 601)] = .ok 2 ∧
    ¬ ((2 : ℤ) ≤ 2 - 1) ∧
    get_start_end_idx
      [some (minutes 600), some (minutes 601), some (minutes 602)]
      (some (minutes 602)) (some (minutes 600)) none = .ok (2, 0) ∧
    ¬ ((2 : ℤ) ≤ 0) :=
  ⟨rfl, rfl, by decide, rfl, by decide⟩

/-- C8 (amended): on a valid backing, every index returned by
`get_idx_list(startidx, endidx, preserveidx=True)` lies in
`[max 0 startidx, min clockLength endidx]` — bounded below by 0 but
above by `clockLength` (one past `clockLength - 1`); and without a
lookback `get_start_end_idx` returns `0 ≤ s ≤ max (clockLength-1) 0`
and `e ≤ clockLength - 1`, without guaranteeing `s ≤ e`. -/
theorem c8_window_bounds (clk : List PyFloat) (si ei : ℤ)
    (hv : clk = [] ∨ ∃ x ∈ clk, x.isSome = true) :
    ∃ L lst, py_len clk = .ok L ∧
      get_idx_list clk si ei true = .ok lst ∧
      (∀ x ∈ lst, max 0 si ≤ x ∧ x ≤ min L ei) ∧
      (∀ sdt edt : Option ℤ, ∃ s e,
        get_start_end_idx clk sdt edt none = .ok (s, e) ∧
        0 ≤ s ∧ s ≤ max (L - 1) 0 ∧ e ≤ L - 1) := by
  obtain ⟨L, hL, hL0, _⟩ := py_len_valid clk hv
  refine ⟨L, intRange (max 0 si) (min L ei + 1), hL, ?_, ?_, ?_⟩
  · rw [get_idx_list, hL, except_bind_ok]
    rfl
  · intro x hx
    have := intRange_mem hx
    omega
  · intro sdt edt
    obtain ⟨s, e, h1, h2, h3⟩ := gse_bounds clk sdt edt none L hL hL0
    obtain ⟨h4, h5⟩ := h3 rfl
    exact ⟨s, e, h1, h4, h5, h2⟩

/-- C8 (witness): the amended bounds at the length-2 clock with the
window `(0, 2)`. -/
theorem c8_window_bounds_witness :
    ∃ L lst,
      py_len [some (minutes 600), some (minutes 601)] = .ok L ∧
      get_idx_list [some (minutes 600), some (minutes 601)] 0 2 true =
        .ok lst ∧
      (∀ x ∈ lst, max 0 (0 : ℤ) ≤ x ∧ x ≤ min L 2) ∧
      (∀ sdt edt : Option ℤ, ∃ s e,
        get_start_end_idx [some (minutes 600), some (minutes 601)]
          sdt edt none = .ok (s, e) ∧
        0 ≤ s ∧ s ≤ max (L - 1) 0 ∧ e ≤ L - 1) :=
  c8_window_bounds [some (minutes 600), some (minutes 601)] 0 2
    (Or.inr ⟨some (minutes 600), by simp, rfl⟩)
